import Mathlib

/-!
# Verification of the beancount core data model

Shallow embedding of the `beancount_core_lib` Rust crate (files under
`src/types/` and `src/lib.rs`) together with proofs about its value
types, conversions, ordering rules, posting weights and ledger ordering.

Representation choices:
* `rust_decimal::Decimal` is embedded as `ℚ` (exact arithmetic, total
  linear order, which is all the claims use).
* `String` (and `Cow<str>`) is embedded as Lean `String`; Rust's
  byte-wise lexicographic `Ord` on `String` coincides with the
  codepoint-wise lexicographic order on `List Char` because UTF-8
  preserves codepoint order.
* `HashSet`/`HashMap` fields are embedded as lists (no claim depends on
  their set semantics).
* A Rust `panic!` is embedded as the `panicked` constructor of
  `RustRes`, carrying the panic message; a Rust `Result<T, E>` is
  embedded as `Except E T`.
-/

namespace Beancount

/-- Embedding of `Ordering`-valued `Decimal::cmp` (total order on `rust_decimal::Decimal`). -/
def decimalCmp (x y : ℚ) : Ordering :=
  if x < y then .lt else if x = y then .eq else .gt

/-- `Decimal::partial_cmp` — always `Some`, since `Decimal` is totally ordered. -/
def decimalPartialCmp (x y : ℚ) : Option Ordering :=
  some (decimalCmp x y)

/-- Embedding of `pub type Currency = String;` (src/types/currency.rs, line 50).
The Rust code performs no validation of currency tokens anywhere. -/
abbrev Currency : Type := String

/-- The predicate the specification states for currency tokens
(`[A-Z][A-Z0-9'._-]*[A-Z0-9]`, at most 24 characters).  This is the
spec's wording, written as a decidable checker; the source contains no
such check.  It is deliberately separate from `Currency` so the two can
be compared. -/
def upperAlphaCh (c : Char) : Bool :=
  decide ('A' ≤ c) && decide (c ≤ 'Z')

/-- Digits, enumerated explicitly. -/
def isDigitCh (c : Char) : Bool :=
  decide (c = '0' ∨ c = '1' ∨ c = '2' ∨ c = '3' ∨ c = '4' ∨
          c = '5' ∨ c = '6' ∨ c = '7' ∨ c = '8' ∨ c = '9')

/-- `[A-Z0-9]`. -/
def upperAlnumCh (c : Char) : Bool :=
  upperAlphaCh c || isDigitCh c

/-- `[A-Z0-9'._-]`. -/
def currencyMidCh (c : Char) : Bool :=
  upperAlnumCh c || decide (c = '\'') || decide (c = '.') || decide (c = '_') || decide (c = '-')

/-- Interior-then-final-character check: all characters but the last
must match `[A-Z0-9'._-]`, the last must match `[A-Z0-9]`. -/
def currencyTail : List Char → Bool
  | [] => false
  | [c] => upperAlnumCh c
  | c :: rest => currencyMidCh c && currencyTail rest

/-- The spec's currency-token pattern `[A-Z][A-Z0-9'._-]*[A-Z0-9]` with
length at most 24, as one decidable predicate on strings. -/
def specCurrencyToken (s : String) : Bool :=
  (decide (s.data.length ≤ 24)) &&
    (match s.data with
     | [] => false
     | c :: rest => upperAlphaCh c && currencyTail rest)

/-- Embedding of `struct Amount` (src/types/amount.rs, lines 10-16). -/
structure Amount where
  num : ℚ
  currency : Currency
deriving DecidableEq

/-- Embedding of `impl PartialOrd for Amount` (src/types/amount.rs, lines
18-26): compare the numbers when the currencies coincide, otherwise
return `None`. -/
def amountPartialCmp (a b : Amount) : Option Ordering :=
  if a.currency = b.currency then decimalPartialCmp a.num b.num else none

/-- Embedding of `struct IncompleteAmount` (src/types/amount.rs, lines 30-38). -/
structure IncompleteAmount where
  num : Option ℚ
  currency : Option Currency
deriving DecidableEq

/-- Rust's derived `PartialOrd for Option<Decimal>`: `None` is below every
`Some`, two `None`s are equal, two `Some`s compare by value (total, so
always `Some`). -/
def optDecimalPartialCmp (x y : Option ℚ) : Option Ordering :=
  match x, y with
  | none, none => some .eq
  | none, some _ => some .lt
  | some _, none => some .gt
  | some a, some b => decimalPartialCmp a b

/-- Embedding of `impl PartialOrd for IncompleteAmount` (src/types/amount.rs,
lines 50-58): the optional currencies are compared with `==` (so two
absent currencies are equal), then the optional numbers with
`Option::partial_cmp`. -/
def incompletePartialCmp (a b : IncompleteAmount) : Option Ordering :=
  if a.currency = b.currency then optDecimalPartialCmp a.num b.num else none

/-- The single failure of `TryFrom<IncompleteAmount> for Amount`.  The Rust
error type is the unit type `()`; the specification names this failure
`IncompleteConversion`, so the one-constructor error type carries that
name. -/
inductive ConvError where
  | IncompleteConversion
deriving DecidableEq

/-- Embedding of `TryFrom<IncompleteAmount> for Amount`
(src/types/amount.rs, lines 60-72): succeed exactly on
`{num: Some n, currency: Some c}`. -/
def amountTryFrom (v : IncompleteAmount) : Except ConvError Amount :=
  match v.num, v.currency with
  | some num, some currency => .ok ⟨num, currency⟩
  | _, _ => .error .IncompleteConversion

/-- Embedding of `From<Amount> for IncompleteAmount`
(src/types/amount.rs, lines 74-81). -/
def incompleteFromAmount (a : Amount) : IncompleteAmount :=
  ⟨some a.num, some a.currency⟩

/-- Embedding of `struct Date(String)` (src/types/date.rs, line 22): an
unvalidated wrapper around the textual form.  The single unnamed Rust
field is called `s` here. -/
structure Date where
  s : String
deriving DecidableEq

/-- The derived `PartialOrd`/`Ord` of `Date` delegates to `String`'s
byte-wise lexicographic order, embedded as the lexicographic order on
the character list (equivalent, since UTF-8 preserves codepoint
order). -/
def dateLt (a b : Date) : Prop :=
  List.Lex (· < ·) a.s.data b.s.data

instance (a b : Date) : Decidable (dateLt a b) :=
  inferInstanceAs (Decidable (List.Lex (· < ·) a.s.data b.s.data))

/-- Calendar denotation of a date string, written from the spec's words
("the calendar dates they denote"): split the text on `-`; when this
yields exactly three nonempty all-digit segments, read them as
(year, month, day).  Used only to compare the code's ordering with the
calendar one; the source has no such function. -/
def digitVal (c : Char) : Nat := c.toNat - 48

def natOfDigits (l : List Char) : Nat :=
  l.foldl (fun n c => 10 * n + digitVal c) 0

def parseNatSeg (l : List Char) : Option Nat :=
  if l ≠ [] ∧ l.all isDigitCh then some (natOfDigits l) else none

def denotesYMD (d : Date) : Option (Nat × Nat × Nat) :=
  match (d.s.data.splitOn '-').map parseNatSeg with
  | [some y, some m, some dd] => some (y, m, dd)
  | _ => none

/-- Calendar order on (year, month, day) triples. -/
def ymdLt (a b : Nat × Nat × Nat) : Prop :=
  a.1 < b.1 ∨ (a.1 = b.1 ∧ (a.2.1 < b.2.1 ∨ (a.2.1 = b.2.1 ∧ a.2.2 < b.2.2)))

instance (a b : Nat × Nat × Nat) : Decidable (ymdLt a b) :=
  inferInstanceAs (Decidable (_ ∨ _))

/-- A date string in the canonical zero-padded `YYYY-MM-DD` form (the
form the crate's own doc comments require: "All digits are required,
for example, the 7th of May 2007 should be 2007-05-07"). -/
def canonicalYMD (s : String) : Bool :=
  match s.data with
  | [y1, y2, y3, y4, h1, m1, m2, h2, d1, d2] =>
    isDigitCh y1 && isDigitCh y2 && isDigitCh y3 && isDigitCh y4 &&
      decide (h1 = '-') && isDigitCh m1 && isDigitCh m2 &&
      decide (h2 = '-') && isDigitCh d1 && isDigitCh d2
  | _ => false

/-- Embedding of `enum AccountType` (src/types/account.rs, lines 7-13). -/
inductive AccountType where
  | assets
  | liabilities
  | equity
  | income
  | expenses
deriving DecidableEq

/-- Embedding of `AccountType::default_name` (src/types/account.rs, lines 16-25). -/
def AccountType.default_name : AccountType → String
  | .assets => "Assets"
  | .liabilities => "Liabilities"
  | .equity => "Equity"
  | .income => "Income"
  | .expenses => "Expenses"

/-- Outcome of a Rust function that can `panic!`: either a normal return
value or a process panic carrying the formatted panic message.  A panic
is a control-flow abort, not a value of the function's return type. -/
inductive RustRes (α : Type) where
  | ok (a : α)
  | panicked (msg : String)
deriving DecidableEq

/-- Embedding of `impl From<&str> for AccountType` (src/types/account.rs,
lines 28-39).  The `_` arm executes `panic!("Invalid account type: {}", s)`. -/
def accountTypeFrom (s : String) : RustRes AccountType :=
  if s = "Assets" then .ok .assets
  else if s = "Liabilities" then .ok .liabilities
  else if s = "Equity" then .ok .equity
  else if s = "Income" then .ok .income
  else if s = "Expenses" then .ok .expenses
  else .panicked ("Invalid account type: " ++ s)

/-- Embedding of `struct Account` (src/types/account.rs, lines 100-106). -/
structure Account where
  account_type : AccountType
  parts : List String
deriving DecidableEq

/-- The five canonical root names. -/
def rootNames : List String :=
  ["Assets", "Liabilities", "Equity", "Income", "Expenses"]

/-- Embedding of `impl From<&str> for Account` (src/types/account.rs,
lines 108-118): split on `:`, read the first segment as the account type
(panicking inside `AccountType::from` if it matches none of the five
roots), keep the remaining segments verbatim.  `split` never yields an
empty list (`List.splitOnP_ne_nil`), so the first match arm is
unreachable. -/
def accountFrom (s : String) : RustRes Account :=
  match s.data.splitOn ':' with
  | [] => .panicked "unreachable: split yields at least one segment"
  | p0 :: rest =>
    match accountTypeFrom (String.mk p0) with
    | .panicked m => .panicked m
    | .ok t => .ok ⟨t, rest.map String.mk⟩

/-- Embedding of `Vec::join(":")` used by `Display for Account`. -/
def joinColon (ps : List String) : String :=
  ⟨[':'].intercalate (ps.map String.data)⟩

/-- Embedding of `impl Display for Account` (src/types/account.rs, lines
120-128): the root name alone when there are no parts, else the root
name, a colon, and the colon-joined parts. -/
def accountDisplay (a : Account) : String :=
  if a.parts.isEmpty then a.account_type.default_name
  else a.account_type.default_name ++ ":" ++ joinColon a.parts

/-- Embedding of `enum Booking` (src/types/directives/open.rs, lines 69-88). -/
inductive Booking where
  | strict
  | strictWithSize
  | none
  | average
  | fifo
  | lifo
deriving DecidableEq

/-- Embedding of `impl TryFrom<&str> for Booking`
(src/types/directives/open.rs, lines 90-104).  The Rust error type is
`()`, embedded as `Unit`. -/
def bookingTryFrom (s : String) : Except Unit Booking :=
  if s = "STRICT" then .ok .strict
  else if s = "STRICT_WITH_SIZE" then .ok .strictWithSize
  else if s = "NONE" then .ok .none
  else if s = "AVERAGE" then .ok .average
  else if s = "FIFO" then .ok .fifo
  else if s = "LIFO" then .ok .lifo
  else .error ()

/-- Modelled from the spec: the `flags` module referenced by
`src/types/directives/posting.rs` and `transaction.rs`
(`crate::flags::Flag`) is not among the provided sources; the spec and
the `Transaction::flag` doc comment describe `*` (completed, the
default `Flag::Okay`) and `!` (needs revision). -/
inductive Flag where
  | okay
  | warning
deriving DecidableEq

/-- Tags (src/types/metadata.rs: `pub type Tag = String`). -/
abbrev Tag : Type := String

/-- Links (src/types/metadata.rs: `pub type Link = String`). -/
abbrev Link : Type := String

/-- Embedding of `enum MetaValue` (src/types/metadata.rs). -/
inductive MetaValue where
  | text (t : String)
  | account (a : Account)
  | date (d : Date)
  | currency (c : Currency)
  | tag (t : Tag)
  | bool (b : Bool)
  | amount (a : Amount)
  | number (n : ℚ)

/-- Embedding of `pub type Meta = HashMap<String, MetaValue>`
(as an association list). -/
abbrev Meta : Type := List (String × MetaValue)

/-- Embedding of `struct Cost` (src/types/directives/position.rs). -/
structure Cost where
  number : ℚ
  currency : Currency
  date : Date
  label : Option String

/-- Embedding of `struct CostSpec` (src/types/directives/position.rs). -/
structure CostSpec where
  number_per : Option ℚ
  number_total : Option ℚ
  currency : Option Currency
  date : Option Date
  label : Option String
  merge_cost : Bool

/-- Embedding of `struct Position` (src/types/directives/position.rs). -/
structure Position where
  units : Amount
  cost : Option Cost

/-- Embedding of `struct Posting` (src/types/directives/posting.rs,
lines 64-85). -/
structure Posting where
  account : Account
  units : IncompleteAmount
  cost : Option CostSpec
  price : Option IncompleteAmount
  flag : Option Flag
  meta : Meta

/-- Modelled from the spec: the source stores a posting's price as one
`IncompleteAmount` and computes no weight; §4.3 distinguishes a
per-unit price (`@`) from a total price (`@@`), so a resolved price
annotation is one of the two, each carrying a resolved `Amount`. -/
inductive PriceAnno where
  | perUnit (a : Amount)
  | total (a : Amount)

/-- Modelled from the spec: the balancing-weight computation of §4.3 is
absent from src (only restated by the doc comment of
src/types/directives/posting.rs, lines 52-57).  Precedence over the
four legal combinations of resolved units, cost and price:
cost present → units.num × cost.number in the cost's currency (the
price, if any, is ignored); price only → units.num × price.num (`@`) or
the price number directly (`@@`), in the price's currency; neither →
the units unchanged. -/
def postingWeight (units : Amount) (cost : Option Cost) (price : Option PriceAnno) : Amount :=
  match cost, price with
  | some c, _ => ⟨units.num * c.number, c.currency⟩
  | none, some (.perUnit p) => ⟨units.num * p.num, p.currency⟩
  | none, some (.total p) => ⟨p.num, p.currency⟩
  | none, none => units

/-- Embedding of `struct Open` (src/types/directives/open.rs, lines 40-56). -/
structure Open where
  date : Date
  account : Account
  currencies : List Currency
  booking : Option Booking

/-- Embedding of `struct Close` (src/types/directives/close.rs). -/
structure Close where
  date : Date
  account : Account

/-- Embedding of `struct Commodity` (src/types/directives/commodity.rs). -/
structure Commodity where
  date : Date
  name : Currency

/-- Embedding of `struct Transaction` (src/types/directives/transaction.rs). -/
structure Transaction where
  date : Date
  flag : Flag
  payee : Option String
  narration : String
  tags : List Tag
  links : List Link
  postings : List Posting

/-- Embedding of `struct Balance` (src/types/directives/balance.rs). -/
structure Balance where
  date : Date
  account : Account
  amount : Amount
  tolerance : Option ℚ

/-- Embedding of `struct Pad` (src/types/directives/pad.rs). -/
structure Pad where
  date : Date
  pad_to_account : Account
  pad_from_account : Account

/-- Embedding of `struct Note` (src/types/directives/note.rs). -/
structure Note where
  date : Date
  account : Account
  comment : String

/-- Embedding of `struct Document` (src/types/directives/document.rs). -/
structure Document where
  date : Date
  account : Account
  path : String

/-- Embedding of `struct Price` (src/types/directives/prices.rs). -/
structure Price where
  date : Date
  currency : Currency
  amount : Amount

/-- Embedding of `struct Event` (src/types/directives/event.rs). -/
structure Event where
  date : Date
  name : String
  description : String

/-- Embedding of `struct Query` (src/types/directives/query.rs). -/
structure Query where
  date : Date
  name : String
  query_string : String

/-- Embedding of `struct Custom` (src/types/directives/custom.rs). -/
structure Custom where
  date : Date
  name : String
  args : List String

/-- Embedding of `struct Include` (src/types/directives/include.rs); undated. -/
structure Include where
  filename : String
  source : Option String

/-- Embedding of `struct BcOption` (src/types/directives/beancount_option.rs); undated. -/
structure BcOption where
  name : String
  val : String
  source : Option String

/-- Embedding of `struct Plugin` (src/types/directives/plugin.rs); undated. -/
structure Plugin where
  module : String
  config : Option String
  source : Option String

/-- Embedding of `enum Directive` (src/types/directives/mod.rs, lines 27-45). -/
inductive Directive where
  | dOpen (o : Open)
  | dClose (c : Close)
  | dCommodity (c : Commodity)
  | dTransaction (t : Transaction)
  | dBalance (b : Balance)
  | dPad (p : Pad)
  | dNote (n : Note)
  | dDocument (d : Document)
  | dPrice (p : Price)
  | dEvent (e : Event)
  | dQuery (q : Query)
  | dCustom (c : Custom)
  | dInclude (i : Include)
  | dOption (o : BcOption)
  | dPlugin (p : Plugin)
  | dUnsupported

/-- Embedding of `struct Ledger` (src/lib.rs, lines 63-66). -/
structure Ledger where
  directives : List Directive

/-- The date a directive carries, when it is a dated variant
(`Include`, `Option`, `Plugin` and `Unsupported` are undated). -/
def dirDate : Directive → Option Date
  | .dOpen o => some o.date
  | .dClose c => some c.date
  | .dCommodity c => some c.date
  | .dTransaction t => some t.date
  | .dBalance b => some b.date
  | .dPad p => some p.date
  | .dNote n => some n.date
  | .dDocument d => some d.date
  | .dPrice p => some p.date
  | .dEvent e => some e.date
  | .dQuery q => some q.date
  | .dCustom c => some c.date
  | .dInclude _ => none
  | .dOption _ => none
  | .dPlugin _ => none
  | .dUnsupported => none

/-- Modelled from the spec (§4.6): for equal dates, a fixed type-priority
places directives other than transactions (in particular `Balance`
checks) before `Transaction` entries — "directives other than
transactions take effect at the start of the day". -/
def dirPrio : Directive → Nat
  | .dTransaction _ => 1
  | _ => 0

/-- The date key a dated directive sorts by: the character list of its
date string (the empty list stands for the undated variants, which are
removed before sorting and so are never compared).  Comparison of keys
is the same lexicographic order `dateLt` uses. -/
def dirDateKey (d : Directive) : List Char :=
  (((dirDate d).map Date.s).getD "").data

/-- The (date, type-priority) sort order of §4.6. -/
def dirLe (a b : Directive) : Prop :=
  dirDateKey a < dirDateKey b ∨ (dirDateKey a = dirDateKey b ∧ dirPrio a ≤ dirPrio b)

instance : DecidableRel dirLe := fun a b => by
  unfold dirLe
  infer_instance

/-- The dated directives of a list, in their original order. -/
def datedDirectives (ds : List Directive) : List Directive :=
  ds.filter (fun d => (dirDate d).isSome)

/-- Modelled from the spec: src declares the `Ledger` struct but contains
no finalization code; §3 and §4.6 state that a finalized ledger's dated
directives are re-sorted by (date, type-priority), undated directives
being exposed separately.  A stable insertion sort by `dirLe` realizes
that description. -/
def finalizeLedger (l : Ledger) : Ledger :=
  ⟨List.insertionSort dirLe (datedDirectives l.directives)⟩

def isTransactionDir : Directive → Prop
  | .dTransaction _ => True
  | _ => False

def isBalanceDir : Directive → Prop
  | .dBalance _ => True
  | _ => False

/-! ## Helper lemmas -/

theorem decimalCmp_eq_lt {x y : ℚ} : decimalCmp x y = .lt ↔ x < y := by
  unfold decimalCmp
  split_ifs with h1 h2 <;> simp_all

theorem optDecimalPartialCmp_isSome (x y : Option ℚ) :
    (optDecimalPartialCmp x y).isSome := by
  cases x <;> cases y <;> simp [optDecimalPartialCmp, decimalPartialCmp]

theorem intercalate_singleton (sep l : List Char) : sep.intercalate [l] = l := by
  simp [List.intercalate]

theorem intercalate_cons_cons (sep l₁ l₂ : List Char) (rest : List (List Char)) :
    sep.intercalate (l₁ :: l₂ :: rest) = l₁ ++ sep ++ sep.intercalate (l₂ :: rest) := by
  simp [List.intercalate]

/-- A full account name built from a root name and colon-free parts, as
the claim describes well-formed full account names. -/
def wellFormedAccountName (s : String) : Prop :=
  ∃ (root : String) (parts : List String), root ∈ rootNames ∧
    (∀ p ∈ parts, ':' ∉ p.data) ∧
    s.data = [':'].intercalate (root.data :: parts.map String.data)

theorem dirLe_total : ∀ a b : Directive, dirLe a b ∨ dirLe b a := by
  intro a b
  rcases lt_trichotomy (dirDateKey a) (dirDateKey b) with h | h | h
  · exact Or.inl (Or.inl h)
  · rcases Nat.le_total (dirPrio a) (dirPrio b) with hp | hp
    · exact Or.inl (Or.inr ⟨h, hp⟩)
    · exact Or.inr (Or.inr ⟨h.symm, hp⟩)
  · exact Or.inr (Or.inl h)

theorem dirLe_trans : ∀ a b c : Directive, dirLe a b → dirLe b c → dirLe a c := by
  intro a b c hab hbc
  rcases hab with h1 | ⟨h1, p1⟩ <;> rcases hbc with h2 | ⟨h2, p2⟩
  · exact Or.inl (h1.trans h2)
  · exact Or.inl (by rw [← h2]; exact h1)
  · exact Or.inl (by rw [h1]; exact h2)
  · exact Or.inr ⟨h1.trans h2, p1.trans p2⟩

instance : IsTotal Directive dirLe := ⟨dirLe_total⟩

instance : IsTrans Directive dirLe := ⟨fun a b c => dirLe_trans a b c⟩

theorem dirPrio_eq_one {d : Directive} (h : isTransactionDir d) : dirPrio d = 1 := by
  cases d <;> simp_all [isTransactionDir, dirPrio]

theorem dirPrio_eq_zero {d : Directive} (h : isBalanceDir d) : dirPrio d = 0 := by
  cases d <;> simp_all [isBalanceDir, dirPrio]

theorem digit_char_cases {c : Char} (h : isDigitCh c = true) :
    c = '0' ∨ c = '1' ∨ c = '2' ∨ c = '3' ∨ c = '4' ∨
      c = '5' ∨ c = '6' ∨ c = '7' ∨ c = '8' ∨ c = '9' :=
  of_decide_eq_true h

theorem digit_lt_iff {c d : Char} (hc : isDigitCh c = true) (hd : isDigitCh d = true) :
    c < d ↔ digitVal c < digitVal d := by
  rcases digit_char_cases hc with rfl | rfl | rfl | rfl | rfl | rfl | rfl | rfl | rfl | rfl <;>
    rcases digit_char_cases hd with rfl | rfl | rfl | rfl | rfl | rfl | rfl | rfl | rfl | rfl <;>
    decide

theorem digit_ne_dash {c : Char} (hc : isDigitCh c = true) : c ≠ '-' := by
  rcases digit_char_cases hc with rfl | rfl | rfl | rfl | rfl | rfl | rfl | rfl | rfl | rfl <;>
    decide

theorem digitVal_le_nine {c : Char} (hc : isDigitCh c = true) : digitVal c ≤ 9 := by
  rcases digit_char_cases hc with rfl | rfl | rfl | rfl | rfl | rfl | rfl | rfl | rfl | rfl <;>
    decide

theorem dash_not_mem_of_digits {l : List Char} (h : l.all isDigitCh = true) :
    '-' ∉ l := fun hm =>
  absurd (List.all_eq_true.mp h '-' hm) (by decide)

theorem natOfDigits_foldl (l : List Char) (a : Nat) :
    l.foldl (fun n c => 10 * n + digitVal c) a = a * 10 ^ l.length + natOfDigits l := by
  induction l generalizing a with
  | nil => simp [natOfDigits]
  | cons c l ih =>
    show l.foldl _ (10 * a + digitVal c) = _
    rw [ih (10 * a + digitVal c)]
    have hcons : natOfDigits (c :: l) = digitVal c * 10 ^ l.length + natOfDigits l := by
      show l.foldl _ (10 * 0 + digitVal c) = _
      rw [ih (10 * 0 + digitVal c)]
      ring
    rw [hcons, List.length_cons]
    ring

theorem natOfDigits_cons (c : Char) (l : List Char) :
    natOfDigits (c :: l) = digitVal c * 10 ^ l.length + natOfDigits l := by
  show l.foldl _ (10 * 0 + digitVal c) = _
  rw [natOfDigits_foldl]
  ring

theorem natOfDigits_lt_pow (l : List Char) (h : l.all isDigitCh = true) :
    natOfDigits l < 10 ^ l.length := by
  induction l with
  | nil => simp [natOfDigits]
  | cons c l ih =>
    simp only [List.all_cons, Bool.and_eq_true] at h
    rw [natOfDigits_cons, List.length_cons]
    have h1 := digitVal_le_nine h.1
    have h2 := ih h.2
    calc digitVal c * 10 ^ l.length + natOfDigits l
        < digitVal c * 10 ^ l.length + 10 ^ l.length := Nat.add_lt_add_left h2 _
      _ = (digitVal c + 1) * 10 ^ l.length := by ring
      _ ≤ 10 * 10 ^ l.length := Nat.mul_le_mul_right _ (by omega)
      _ = 10 ^ (l.length + 1) := by ring

theorem lex_cons_iff {a b : Char} {l₁ l₂ : List Char} :
    List.Lex (· < ·) (a :: l₁) (b :: l₂) ↔ a < b ∨ (a = b ∧ List.Lex (· < ·) l₁ l₂) := by
  constructor
  · intro h
    cases h with
    | rel h => exact Or.inl h
    | cons h => exact Or.inr ⟨rfl, h⟩
  · rintro (h | ⟨rfl, h⟩)
    · exact List.Lex.rel h
    · exact List.Lex.cons h

theorem lex_append_iff {l₁ l₂ : List Char} (h : l₁.length = l₂.length) (t₁ t₂ : List Char) :
    List.Lex (· < ·) (l₁ ++ t₁) (l₂ ++ t₂) ↔
      List.Lex (· < ·) l₁ l₂ ∨ (l₁ = l₂ ∧ List.Lex (· < ·) t₁ t₂) := by
  induction l₁ generalizing l₂ with
  | nil =>
    cases l₂ with
    | nil => simp [List.Lex.not_nil_right]
    | cons b l₂ => simp at h
  | cons a l₁ ih =>
    cases l₂ with
    | nil => simp at h
    | cons b l₂ =>
      simp only [List.length_cons, Nat.succ.injEq] at h
      simp only [List.cons_append, lex_cons_iff, ih h, List.cons.injEq]
      constructor
      · rintro (h' | ⟨rfl, h'' | ⟨rfl, h3⟩⟩)
        · exact Or.inl (Or.inl h')
        · exact Or.inl (Or.inr ⟨rfl, h''⟩)
        · exact Or.inr ⟨⟨rfl, rfl⟩, h3⟩
      · rintro ((h' | ⟨rfl, h''⟩) | ⟨⟨rfl, rfl⟩, h3⟩)
        · exact Or.inl h'
        · exact Or.inr ⟨rfl, Or.inl h''⟩
        · exact Or.inr ⟨rfl, Or.inr ⟨rfl, h3⟩⟩

theorem digits_lex_val_lt : ∀ {l₁ l₂ : List Char}, l₁.length = l₂.length →
    l₁.all isDigitCh = true → l₂.all isDigitCh = true →
    List.Lex (· < ·) l₁ l₂ → natOfDigits l₁ < natOfDigits l₂ := by
  intro l₁
  induction l₁ with
  | nil =>
    intro l₂ hlen _ _ hlex
    cases l₂ with
    | nil => cases hlex
    | cons b l₂ => simp at hlen
  | cons a l₁ ih =>
    intro l₂ hlen h1 h2 hlex
    cases l₂ with
    | nil => simp at hlen
    | cons b l₂ =>
      simp only [List.all_cons, Bool.and_eq_true] at h1 h2
      simp only [List.length_cons, Nat.succ.injEq] at hlen
      rw [natOfDigits_cons, natOfDigits_cons, hlen]
      rcases lex_cons_iff.mp hlex with hab | ⟨rfl, htail⟩
      · have hd : digitVal a < digitVal b := (digit_lt_iff h1.1 h2.1).mp hab
        have hv : natOfDigits l₁ < 10 ^ l₂.length :=
          hlen ▸ natOfDigits_lt_pow l₁ h1.2
        calc digitVal a * 10 ^ l₂.length + natOfDigits l₁
            < digitVal a * 10 ^ l₂.length + 10 ^ l₂.length := Nat.add_lt_add_left hv _
          _ = (digitVal a + 1) * 10 ^ l₂.length := by ring
          _ ≤ digitVal b * 10 ^ l₂.length := Nat.mul_le_mul_right _ hd
          _ ≤ digitVal b * 10 ^ l₂.length + natOfDigits l₂ := Nat.le_add_right _ _
      · exact Nat.add_lt_add_left (ih hlen h1.2 h2.2 htail) _

theorem digits_lex_iff {l₁ l₂ : List Char} (hlen : l₁.length = l₂.length)
    (h1 : l₁.all isDigitCh = true) (h2 : l₂.all isDigitCh = true) :
    List.Lex (· < ·) l₁ l₂ ↔ natOfDigits l₁ < natOfDigits l₂ := by
  constructor
  · exact digits_lex_val_lt hlen h1 h2
  · intro hv
    have ht : List.Lex (· < ·) l₁ l₂ ∨ l₁ = l₂ ∨ List.Lex (· < ·) l₂ l₁ :=
      trichotomous_of _ l₁ l₂
    rcases ht with h | rfl | h
    · exact h
    · omega
    · exact absurd (digits_lex_val_lt hlen.symm h2 h1 h) (by omega)

theorem digits_eq_iff {l₁ l₂ : List Char} (hlen : l₁.length = l₂.length)
    (h1 : l₁.all isDigitCh = true) (h2 : l₂.all isDigitCh = true) :
    l₁ = l₂ ↔ natOfDigits l₁ = natOfDigits l₂ := by
  constructor
  · rintro rfl
    rfl
  · intro hv
    have ht : List.Lex (· < ·) l₁ l₂ ∨ l₁ = l₂ ∨ List.Lex (· < ·) l₂ l₁ :=
      trichotomous_of _ l₁ l₂
    rcases ht with h | rfl | h
    · exact absurd (digits_lex_val_lt hlen h1 h2 h) (by omega)
    · rfl
    · exact absurd (digits_lex_val_lt hlen.symm h2 h1 h) (by omega)

theorem canonical_shape {s : String} (h : canonicalYMD s = true) :
    ∃ Y M D : List Char, Y.length = 4 ∧ M.length = 2 ∧ D.length = 2 ∧
      Y.all isDigitCh = true ∧ M.all isDigitCh = true ∧ D.all isDigitCh = true ∧
      s.data = Y ++ '-' :: (M ++ '-' :: D) := by
  unfold canonicalYMD at h
  split at h
  · rename_i y1 y2 y3 y4 h1 m1 m2 h2 d1 d2 heq
    simp only [Bool.and_eq_true, decide_eq_true_eq] at h
    obtain ⟨⟨⟨⟨⟨⟨⟨⟨⟨hy1, hy2⟩, hy3⟩, hy4⟩, hh1⟩, hm1⟩, hm2⟩, hh2⟩, hd1⟩, hd2⟩ := h
    subst hh1
    subst hh2
    exact ⟨[y1, y2, y3, y4], [m1, m2], [d1, d2], rfl, rfl, rfl,
      by simp [hy1, hy2, hy3, hy4], by simp [hm1, hm2], by simp [hd1, hd2], heq⟩
  · exact absurd h (by simp)

theorem canonical_denotes {s : String} {Y M D : List Char}
    (hY : Y.all isDigitCh = true) (hM : M.all isDigitCh = true)
    (hD : D.all isDigitCh = true)
    (hYne : Y ≠ []) (hMne : M ≠ []) (hDne : D ≠ [])
    (hs : s.data = Y ++ '-' :: (M ++ '-' :: D)) :
    denotesYMD ⟨s⟩ = some (natOfDigits Y, natOfDigits M, natOfDigits D) := by
  have hinter : ['-'].intercalate [Y, M, D] = Y ++ '-' :: (M ++ '-' :: D) := by
    simp [List.intercalate]
  have hsplit : s.data.splitOn '-' = [Y, M, D] := by
    rw [hs, ← hinter]
    apply List.splitOn_intercalate
    · intro l hl
      rcases List.mem_cons.mp hl with rfl | hl
      · exact dash_not_mem_of_digits hY
      rcases List.mem_cons.mp hl with rfl | hl
      · exact dash_not_mem_of_digits hM
      rcases List.mem_cons.mp hl with rfl | hl
      · exact dash_not_mem_of_digits hD
      · simp at hl
    · simp
  have hpY : parseNatSeg Y = some (natOfDigits Y) := by
    rw [parseNatSeg, if_pos ⟨hYne, hY⟩]
  have hpM : parseNatSeg M = some (natOfDigits M) := by
    rw [parseNatSeg, if_pos ⟨hMne, hM⟩]
  have hpD : parseNatSeg D = some (natOfDigits D) := by
    rw [parseNatSeg, if_pos ⟨hDne, hD⟩]
  unfold denotesYMD
  rw [hsplit]
  simp [hpY, hpM, hpD]

/-! ## Claim theorems -/

/-- C1: for a posting with resolved units, the balancing weight follows
the four legal combinations of amount, cost and price: no cost and no
price → the units as-is; price only → units.num × price.num (per-unit)
or the total price number directly, in the price's currency; cost only
→ units.num × cost.number in the cost's currency; cost and price both
present → the cost alone determines the weight, the price plays no part. -/
theorem posting_weight_four_cases :
    (∀ u : Amount, postingWeight u none none = u) ∧
    (∀ (u : Amount) (p : Amount),
      postingWeight u none (some (.perUnit p)) = ⟨u.num * p.num, p.currency⟩) ∧
    (∀ (u : Amount) (p : Amount),
      postingWeight u none (some (.total p)) = ⟨p.num, p.currency⟩) ∧
    (∀ (u : Amount) (c : Cost),
      postingWeight u (some c) none = ⟨u.num * c.number, c.currency⟩) ∧
    (∀ (u : Amount) (c : Cost) (pr : PriceAnno),
      postingWeight u (some c) (some pr) = postingWeight u (some c) none) :=
  ⟨fun _ => rfl, fun _ _ => rfl, fun _ _ => rfl, fun _ _ => rfl, fun _ _ _ => rfl⟩

/-- C4 counterexample: `Date` equality and ordering follow the stored
string, not the calendar value.  `"2020-1-02"` and `"2020-01-02"`
denote the same calendar day yet compare unequal, and `"2020-9-01"`
(September) sorts lexicographically *after* `"2020-10-01"` (October)
although it denotes an earlier calendar day. -/
theorem date_order_not_calendar :
    denotesYMD ⟨"2020-1-02"⟩ = some (2020, 1, 2) ∧
    denotesYMD ⟨"2020-01-02"⟩ = some (2020, 1, 2) ∧
    Date.mk "2020-1-02" ≠ Date.mk "2020-01-02" ∧
    denotesYMD ⟨"2020-9-01"⟩ = some (2020, 9, 1) ∧
    denotesYMD ⟨"2020-10-01"⟩ = some (2020, 10, 1) ∧
    ymdLt (2020, 9, 1) (2020, 10, 1) ∧
    ¬ dateLt ⟨"2020-9-01"⟩ ⟨"2020-10-01"⟩ ∧
    dateLt ⟨"2020-10-01"⟩ ⟨"2020-9-01"⟩ := by
  decide

/-- C4 (amended): `Date` equality and ordering are by the underlying
string (lexicographic, the derived `Ord` of `Date(String)`), not by
calendar value; for dates written in the canonical zero-padded
`YYYY-MM-DD` form the string order and string equality agree exactly
with the calendar order and calendar equality of the denoted days. -/
theorem date_order_agrees_on_canonical (a b : Date)
    (ha : canonicalYMD a.s = true) (hb : canonicalYMD b.s = true) :
    ∃ va vb, denotesYMD a = some va ∧ denotesYMD b = some vb ∧
      (dateLt a b ↔ ymdLt va vb) ∧ (a = b ↔ va = vb) := by
  obtain ⟨Y1, M1, D1, hYl1, hMl1, hDl1, hYd1, hMd1, hDd1, hs1⟩ := canonical_shape ha
  obtain ⟨Y2, M2, D2, hYl2, hMl2, hDl2, hYd2, hMd2, hDd2, hs2⟩ := canonical_shape hb
  have hne : ∀ {L : List Char} {n : Nat}, L.length = n → 0 < n → L ≠ [] := by
    rintro L n hL hn rfl
    simp at hL
    omega
  refine ⟨(natOfDigits Y1, natOfDigits M1, natOfDigits D1),
    (natOfDigits Y2, natOfDigits M2, natOfDigits D2),
    canonical_denotes hYd1 hMd1 hDd1 (hne hYl1 (by omega)) (hne hMl1 (by omega))
      (hne hDl1 (by omega)) hs1,
    canonical_denotes hYd2 hMd2 hDd2 (hne hYl2 (by omega)) (hne hMl2 (by omega))
      (hne hDl2 (by omega)) hs2, ?_, ?_⟩
  · unfold dateLt ymdLt
    rw [hs1, hs2]
    rw [lex_append_iff (by rw [hYl1, hYl2]) ('-' :: (M1 ++ '-' :: D1)) ('-' :: (M2 ++ '-' :: D2))]
    rw [lex_cons_iff]
    rw [lex_append_iff (by rw [hMl1, hMl2]) ('-' :: D1) ('-' :: D2)]
    rw [lex_cons_iff]
    rw [digits_lex_iff (hYl1.trans hYl2.symm) hYd1 hYd2,
      digits_eq_iff (hYl1.trans hYl2.symm) hYd1 hYd2,
      digits_lex_iff (hMl1.trans hMl2.symm) hMd1 hMd2,
      digits_eq_iff (hMl1.trans hMl2.symm) hMd1 hMd2,
      digits_lex_iff (hDl1.trans hDl2.symm) hDd1 hDd2]
    simp [lt_irrefl]
  · constructor
    · rintro rfl
      have h12 : Y1 ++ '-' :: (M1 ++ '-' :: D1) = Y2 ++ '-' :: (M2 ++ '-' :: D2) := by
        rw [← hs1, ← hs2]
      obtain ⟨hYe, hrest⟩ := List.append_inj h12 (hYl1.trans hYl2.symm)
      injection hrest with _ hrest2
      obtain ⟨hMe, hrest3⟩ := List.append_inj hrest2 (hMl1.trans hMl2.symm)
      injection hrest3 with _ hDe
      rw [hYe, hMe, hDe]
    · intro h
      simp only [Prod.mk.injEq] at h
      obtain ⟨hY, hM, hD⟩ := h
      have hYe : Y1 = Y2 := (digits_eq_iff (hYl1.trans hYl2.symm) hYd1 hYd2).mpr hY
      have hMe : M1 = M2 := (digits_eq_iff (hMl1.trans hMl2.symm) hMd1 hMd2).mpr hM
      have hDe : D1 = D2 := (digits_eq_iff (hDl1.trans hDl2.symm) hDd1 hDd2).mpr hD
      have hdata : a.s.data = b.s.data := by
        rw [hs1, hs2, hYe, hMe, hDe]
      have hstr : a.s = b.s := String.toList_inj.mp hdata
      cases a
      cases b
      simp_all

/-- C4 witness: two concrete canonical dates, where string order and
calendar order agree. -/
theorem date_order_agrees_on_canonical_witness :
    ∃ va vb, denotesYMD ⟨"2024-08-05"⟩ = some va ∧ denotesYMD ⟨"2024-12-26"⟩ = some vb ∧
      (dateLt ⟨"2024-08-05"⟩ ⟨"2024-12-26"⟩ ↔ ymdLt va vb) ∧
      (Date.mk "2024-08-05" = Date.mk "2024-12-26" ↔ va = vb) :=
  date_order_agrees_on_canonical ⟨"2024-08-05"⟩ ⟨"2024-12-26"⟩ (by decide) (by decide)

/-- C2: a finalized ledger's sequence of dated directives is a
permutation of the dated directives supplied, sorted by
(date, type-priority): dates ascend, and among equal dates no
`Transaction` ever precedes a `Balance`, i.e. every same-day `Balance`
directive comes before every same-day `Transaction` — whatever order
the directives were supplied in. -/
theorem ledger_finalize_sorted (l : Ledger) :
    (finalizeLedger l).directives.Perm (datedDirectives l.directives) ∧
    List.Sorted (fun a b => dirDateKey a ≤ dirDateKey b) (finalizeLedger l).directives ∧
    List.Pairwise
      (fun a b => dirDateKey a = dirDateKey b → isTransactionDir a → ¬ isBalanceDir b)
      (finalizeLedger l).directives := by
  have hs : List.Sorted dirLe (finalizeLedger l).directives :=
    List.sorted_insertionSort dirLe (datedDirectives l.directives)
  refine ⟨List.perm_insertionSort dirLe (datedDirectives l.directives), ?_, ?_⟩
  · refine hs.imp ?_
    intro a b hab
    rcases hab with h | ⟨h, _⟩
    · exact le_of_lt h
    · exact le_of_eq h
  · refine hs.imp ?_
    intro a b hab heq hta hba
    rcases hab with h | ⟨_, hp⟩
    · rw [heq] at h
      exact lt_irrefl _ h
    · rw [dirPrio_eq_one hta, dirPrio_eq_zero hba] at hp
      exact Nat.not_succ_le_zero 0 hp

/-- C3 counterexample: on an input whose first colon-separated segment
matches none of the five root names, `Account::from` does not return a
typed error to the caller — it executes
`panic!("Invalid account type: {}", s)` (src/types/account.rs line 36),
a process-level panic.  The embedding has no typed-error channel for
this function because the Rust `From` impl is infallible by signature;
the only failure mode is the panic. -/
theorem account_from_invalid_root_is_panic :
    accountFrom "Foo:Bar" = .panicked "Invalid account type: Foo" := by
  decide

/-- C3 (amended): for every input string whose first colon-separated
segment does not match one of the five canonical root names,
`Account::from` panics with the message
`"Invalid account type: <segment>"`; the failure is a `panic!`, not a
typed result value returned to the caller. -/
theorem account_from_invalid_root_panics (s : String) (p0 : List Char)
    (rest : List (List Char))
    (hsplit : s.data.splitOn ':' = p0 :: rest)
    (hmem : String.mk p0 ∉ rootNames) :
    accountFrom s = .panicked ("Invalid account type: " ++ String.mk p0) := by
  unfold accountFrom
  rw [hsplit]
  simp only [rootNames, List.mem_cons, List.not_mem_nil, or_false, not_or] at hmem
  obtain ⟨h1, h2, h3, h4, h5⟩ := hmem
  simp [accountTypeFrom, h1, h2, h3, h4, h5]

/-- C3 witness: a concrete unrecognized root panics. -/
theorem account_from_invalid_root_panics_witness :
    accountFrom "Bogus:Cash" = .panicked ("Invalid account type: " ++ String.mk "Bogus".data) :=
  account_from_invalid_root_panics "Bogus:Cash" "Bogus".data ["Cash".data]
    (by decide) (by decide)

/-- C8: for every well-formed full account name (a valid root name
optionally followed by colon-separated parts), `Account::from` followed
by `Display` reproduces the name; in particular for
`"Assets:US:BofA:Checking"` and `"Assets"`. -/
theorem account_from_display_roundtrip :
    (∀ s : String, wellFormedAccountName s →
      ∃ a, accountFrom s = .ok a ∧ accountDisplay a = s) ∧
    (∃ a, accountFrom "Assets:US:BofA:Checking" = .ok a ∧
      accountDisplay a = "Assets:US:BofA:Checking") ∧
    (∃ a, accountFrom "Assets" = .ok a ∧ accountDisplay a = "Assets") := by
  refine ⟨?_, ⟨⟨.assets, ["US", "BofA", "Checking"]⟩, by decide, by decide⟩,
    ⟨⟨.assets, []⟩, by decide, by decide⟩⟩
  rintro s ⟨root, parts, hroot, hparts, hs⟩
  have hrootc : ':' ∉ root.data := by
    simp only [rootNames, List.mem_cons, List.not_mem_nil, or_false] at hroot
    rcases hroot with h | h | h | h | h <;> subst h <;> decide
  have hsplit : s.data.splitOn ':' = root.data :: parts.map String.data := by
    rw [hs]
    apply List.splitOn_intercalate
    · intro l hl
      rcases List.mem_cons.mp hl with rfl | hl
      · exact hrootc
      · obtain ⟨p, hp, rfl⟩ := List.mem_map.mp hl
        exact hparts p hp
    · simp
  have hmapmk : (parts.map String.data).map String.mk = parts := by
    rw [List.map_map]
    show parts.map id = parts
    exact List.map_id parts
  have hfrom : ∀ t : AccountType, accountTypeFrom root = .ok t →
      accountFrom s = .ok ⟨t, parts⟩ := by
    intro t ht
    have hmk : String.mk root.data = root := rfl
    simp only [accountFrom, hsplit, hmk, ht, hmapmk]
  have hdisp : ∀ t : AccountType, t.default_name = root →
      accountDisplay ⟨t, parts⟩ = s := by
    intro t ht
    cases parts with
    | nil =>
      have hsd : s.data = root.data := by
        simpa [intercalate_singleton] using hs
      have : s = root := String.toList_inj.mp hsd
      rw [this, ← ht]
      rfl
    | cons q qs =>
      apply String.toList_inj.mp
      show (accountDisplay ⟨t, q :: qs⟩).data = s.data
      rw [hs]
      simp [accountDisplay, joinColon, ht, intercalate_cons_cons, List.append_assoc]
  simp only [rootNames, List.mem_cons, List.not_mem_nil, or_false] at hroot
  rcases hroot with h | h | h | h | h <;> subst h
  · exact ⟨⟨.assets, parts⟩, hfrom .assets rfl, hdisp .assets rfl⟩
  · exact ⟨⟨.liabilities, parts⟩, hfrom .liabilities rfl, hdisp .liabilities rfl⟩
  · exact ⟨⟨.equity, parts⟩, hfrom .equity rfl, hdisp .equity rfl⟩
  · exact ⟨⟨.income, parts⟩, hfrom .income rfl, hdisp .income rfl⟩
  · exact ⟨⟨.expenses, parts⟩, hfrom .expenses rfl, hdisp .expenses rfl⟩

/-- C8 witness: the round trip at a concrete well-formed name. -/
theorem account_from_display_roundtrip_witness :
    ∃ a, accountFrom "Income:US:Acme:Salary" = .ok a ∧
      accountDisplay a = "Income:US:Acme:Salary" :=
  account_from_display_roundtrip.1 "Income:US:Acme:Salary"
    ⟨"Income", ["US", "Acme", "Salary"], by decide, by decide, by decide⟩

/-- C5 counterexample: the lowercase token `"usd"` fails the spec's
currency pattern, yet the core accepts it as the `Currency` of an
`Amount` — `Currency` is an unvalidated `String` alias. -/
theorem currency_pattern_unenforced :
    (Amount.mk 1 "usd").currency = "usd" ∧ specCurrencyToken "usd" = false :=
  ⟨rfl, by decide⟩

/-- C5 (amended): `Currency` is a plain string alias; the core enforces
no pattern or length constraint, so every string occurs as the currency
of some `Amount`, and two `Currency` values are equal exactly when
their string tokens are identical. -/
theorem currency_is_unvalidated_string :
    (∀ s : String, ∃ a : Amount, a.currency = s) ∧
    (∀ c₁ c₂ : Currency, c₁ = c₂ ↔ (c₁ : String) = (c₂ : String)) :=
  ⟨fun s => ⟨⟨0, s⟩, rfl⟩, fun _ _ => Iff.rfl⟩

/-- C6: `Amount::partial_cmp` returns `Some` exactly when the two
currencies are equal (the ordering then determined by comparing the
numbers), and `None` whenever the currencies differ. -/
theorem amount_partial_cmp_by_currency (a b : Amount) :
    ((amountPartialCmp a b).isSome ↔ a.currency = b.currency) ∧
    (a.currency = b.currency → amountPartialCmp a b = some (decimalCmp a.num b.num)) ∧
    (a.currency ≠ b.currency → amountPartialCmp a b = none) ∧
    (amountPartialCmp a b = some .lt ↔ a.currency = b.currency ∧ a.num < b.num) := by
  by_cases h : a.currency = b.currency <;>
    simp [amountPartialCmp, decimalPartialCmp, h, decimalCmp_eq_lt]

/-- C6 witness: amounts of one currency compare numerically, amounts of
different currencies are incomparable. -/
theorem amount_partial_cmp_by_currency_witness :
    amountPartialCmp ⟨1, "USD"⟩ ⟨2, "USD"⟩ = some .lt ∧
    amountPartialCmp ⟨1, "USD"⟩ ⟨1, "CAD"⟩ = none :=
  ⟨(amount_partial_cmp_by_currency ⟨1, "USD"⟩ ⟨2, "USD"⟩).2.2.2.mpr ⟨rfl, by norm_num⟩,
   (amount_partial_cmp_by_currency ⟨1, "USD"⟩ ⟨1, "CAD"⟩).2.2.1 (by decide)⟩

/-- C7: `Amount::try_from` on an `IncompleteAmount` succeeds exactly when
both fields are present, yielding the amount with that number and
currency, and fails with the `IncompleteConversion` error otherwise. -/
theorem amount_try_from_exactly_when_complete (v : IncompleteAmount) :
    (∀ n c, v.num = some n → v.currency = some c → amountTryFrom v = .ok ⟨n, c⟩) ∧
    ((v.num = none ∨ v.currency = none) →
      amountTryFrom v = .error .IncompleteConversion) ∧
    ((∃ a, amountTryFrom v = .ok a) ↔ (v.num.isSome ∧ v.currency.isSome)) := by
  obtain ⟨n, c⟩ := v
  cases n <;> cases c <;> simp [amountTryFrom]

/-- C7 witness: both fields present converts, a missing number fails. -/
theorem amount_try_from_witness :
    amountTryFrom ⟨some 3, some "USD"⟩ = .ok ⟨3, "USD"⟩ ∧
    amountTryFrom ⟨none, some "USD"⟩ = .error .IncompleteConversion :=
  ⟨(amount_try_from_exactly_when_complete ⟨some 3, some "USD"⟩).1 3 "USD" rfl rfl,
   (amount_try_from_exactly_when_complete ⟨none, some "USD"⟩).2.1 (Or.inl rfl)⟩

/-- C9: `Booking::try_from` succeeds exactly on the six tokens `STRICT`,
`STRICT_WITH_SIZE`, `NONE`, `AVERAGE`, `FIFO`, `LIFO`, yielding the
corresponding method, and fails on every other string. -/
theorem booking_try_from_six_tokens :
    bookingTryFrom "STRICT" = .ok .strict ∧
    bookingTryFrom "STRICT_WITH_SIZE" = .ok .strictWithSize ∧
    bookingTryFrom "NONE" = .ok .none ∧
    bookingTryFrom "AVERAGE" = .ok .average ∧
    bookingTryFrom "FIFO" = .ok .fifo ∧
    bookingTryFrom "LIFO" = .ok .lifo ∧
    (∀ s : String,
      s ∉ (["STRICT", "STRICT_WITH_SIZE", "NONE", "AVERAGE", "FIFO", "LIFO"] : List String) →
      bookingTryFrom s = .error ()) := by
  refine ⟨rfl, rfl, rfl, rfl, rfl, rfl, ?_⟩
  intro s h
  simp only [List.mem_cons, List.not_mem_nil, or_false, not_or] at h
  obtain ⟨h1, h2, h3, h4, h5, h6⟩ := h
  simp [bookingTryFrom, h1, h2, h3, h4, h5, h6]

/-- C9 witness: an unknown token fails. -/
theorem booking_try_from_six_tokens_witness :
    bookingTryFrom "AVG" = .error () :=
  booking_try_from_six_tokens.2.2.2.2.2.2 "AVG" (by decide)

/-- C10: `IncompleteAmount::partial_cmp` returns `Some` exactly when the
two optional currency fields are equal (including both absent); a
missing number then sorts strictly below every present number and two
missing numbers compare equal, while any difference in the currency
options yields `None`. -/
theorem incomplete_partial_cmp_by_currency (a b : IncompleteAmount) :
    ((incompletePartialCmp a b).isSome ↔ a.currency = b.currency) ∧
    (a.currency ≠ b.currency → incompletePartialCmp a b = none) ∧
    (a.currency = b.currency →
      incompletePartialCmp a b = optDecimalPartialCmp a.num b.num) ∧
    (a.currency = b.currency → a.num = none → ∀ q, b.num = some q →
      incompletePartialCmp a b = some .lt) ∧
    (a.currency = b.currency → a.num = none → b.num = none →
      incompletePartialCmp a b = some .eq) := by
  by_cases h : a.currency = b.currency
  · refine ⟨by simp [incompletePartialCmp, h, optDecimalPartialCmp_isSome], ?_, ?_, ?_, ?_⟩
    · intro hc; exact absurd h hc
    · intro _; simp [incompletePartialCmp, h]
    · intro _ hn q hq; simp [incompletePartialCmp, h, hn, hq, optDecimalPartialCmp]
    · intro _ hn hq; simp [incompletePartialCmp, h, hn, hq, optDecimalPartialCmp]
  · refine ⟨by simp [incompletePartialCmp, h], fun _ => by simp [incompletePartialCmp, h],
      ?_, ?_, ?_⟩ <;> intro hc <;> exact absurd hc h

/-- C10 witness: equal absent currencies give `Some`, a missing number
sorts below a present one, and differing currency options give `None`. -/
theorem incomplete_partial_cmp_by_currency_witness :
    incompletePartialCmp ⟨none, none⟩ ⟨some 5, none⟩ = some .lt ∧
    incompletePartialCmp ⟨none, none⟩ ⟨none, none⟩ = some .eq ∧
    incompletePartialCmp ⟨some 1, some "USD"⟩ ⟨some 1, none⟩ = none :=
  ⟨(incomplete_partial_cmp_by_currency ⟨none, none⟩ ⟨some 5, none⟩).2.2.2.1 rfl rfl 5 rfl,
   (incomplete_partial_cmp_by_currency ⟨none, none⟩ ⟨none, none⟩).2.2.2.2 rfl rfl rfl,
   (incomplete_partial_cmp_by_currency ⟨some 1, some "USD"⟩ ⟨some 1, none⟩).2.1 (by decide)⟩

end Beancount
